import Mathlib

/-!
Verification of core behaviours of the Universal-Video-Downloader queue and
worker layer (`src/mdl/queue_manager.py`, `src/mdl/workers.py`,
`src/mdl/main_window.py`), shallowly embedded in Lean.

Python floats used for clock readings, percentages and modification times are
modelled as rationals; byte counts as naturals; fallible operations return a
`Bool` success flag exactly as the source does.
-/

namespace MDL

/-- Queue item statuses.  The source stores them as the strings produced by
`Status.str`; the queue only ever holds these five values. -/
inductive Status where
  | pending
  | downloading
  | finished
  | error
  | cancelled
deriving DecidableEq

/-- The string that `QueueManager` stores for each status
(`"pending"`, `"downloading"`, ...). -/
def Status.str : Status → String
  | .pending => "pending"
  | .downloading => "downloading"
  | .finished => "finished"
  | .error => "error"
  | .cancelled => "cancelled"

/-- One entry of `QueueManager._items` (a Python dict with these keys). -/
structure QueueItem where
  url : String
  status : Status
  title : String
  mode : String
  options : List (String × String)
  error_message : String
  progress : ℚ
deriving DecidableEq

/-- `QueueManager.remove(index)` from `src/mdl/queue_manager.py`: rejects an
out-of-range index (`index < 0 or index >= len(self._items)`), rejects any
status outside `{"pending", "finished", "error"}`, otherwise pops the item.
Returns the success flag together with the resulting queue. -/
def remove (items : List QueueItem) (index : ℤ) : Bool × List QueueItem :=
  if h : 0 ≤ index ∧ index.toNat < items.length then
    if (items.get ⟨index.toNat, h.2⟩).status.str
        ∈ (["pending", "finished", "error"] : List String) then
      (true, items.take index.toNat ++ items.drop (index.toNat + 1))
    else
      (false, items)
  else
    (false, items)

/-- `QueueManager.update_status(index, status, error_message)`: on a valid
index, overwrites the item's `status` and `error_message` fields and returns
`True`; otherwise returns `False` and leaves the queue untouched. -/
def updateStatus (items : List QueueItem) (index : ℤ) (status : Status)
    (msg : String) : Bool × List QueueItem :=
  if h : 0 ≤ index ∧ index.toNat < items.length then
    (true, items.set index.toNat
      { items.get ⟨index.toNat, h.2⟩ with status := status, error_message := msg })
  else
    (false, items)

/-- Calling `update_status` without the third argument: the Python default
binds `error_message=""`. -/
def updateStatusDefaultMsg (items : List QueueItem) (index : ℤ)
    (status : Status) : Bool × List QueueItem :=
  updateStatus items index status ""

/-- The statuses from which `remove` succeeds. -/
def removable (s : Status) : Prop :=
  s = .pending ∨ s = .finished ∨ s = .error

instance (s : Status) : Decidable (removable s) := by
  unfold removable; infer_instance

instance : Inhabited QueueItem :=
  ⟨⟨"", .pending, "", "", [], "", 0⟩⟩

/-- A concrete queue item used by witnesses. -/
def sampleItem (s : Status) : QueueItem :=
  ⟨"u", s, "t", "video", [], "", 0⟩

/-- A scratch-directory listing entry: file name and size in bytes, in
`os.scandir` order.  The worker skips non-files, so only regular files are
modelled. -/
abbrev DirEntry := String × Nat

/-- Python `s.endswith(t)`. -/
def pyEndsWith (s t : String) : Bool :=
  t.data.isSuffixOf s.data

/-- The scan loop's match test: `path.endswith(f".{self.target_ext}")`. -/
def extMatch (targetExt : String) (e : String × Nat) : Bool :=
  pyEndsWith e.1 ("." ++ targetExt)

/-- One step of the largest-file bookkeeping of the scan loop:
`if size > largest_size`, where the running maximum starts at `-1` (so any
first file beats it) and ties keep the earlier file. -/
def pickLargest (acc : Option DirEntry) (e : DirEntry) : Option DirEntry :=
  match acc with
  | none => some e
  | some a => if a.2 < e.2 then some e else some a

/-- The scan loop of `DownloadWorker.run` (src/mdl/workers.py): walk the
entries in order; the first file whose path ends in `"." + target_ext` is
taken as `target` and the loop `break`s; otherwise the loop keeps the largest
file seen so far.  Returns the pair `(target, largest_file)` as the loop
leaves them. -/
def scanLoop (targetExt : String) :
    List DirEntry → Option DirEntry → Option String × Option DirEntry
  | [], acc => (none, acc)
  | e :: rest, acc =>
    if extMatch targetExt e then
      (some e.1, acc)
    else
      scanLoop targetExt rest (pickLargest acc e)

/-- `target = target or largest_file` after the scan loop: the extension match
wins, otherwise the largest file, otherwise nothing. -/
def resolveArtifact (targetExt : String) (entries : List DirEntry) :
    Option String :=
  match scanLoop targetExt entries none with
  | (some t, _) => some t
  | (none, largest) => largest.map Prod.fst

/-- The callbacks a `DownloadWorker` can emit: progress, or one of the two
terminal signals. -/
inductive Sig where
  | progress (percent : ℚ) (msg : String)
  | finished (msg : String)
  | error (msg : String)
deriving DecidableEq

/-- A signal is terminal when it is `finished` or `error`. -/
def Sig.isTerminal : Sig → Bool
  | .progress _ _ => false
  | .finished _ => true
  | .error _ => true

/-- Environment of one `DownloadWorker.run` execution, fixing everything the
control flow branches on: whether the engine call raised (and its message),
the cancellation flag as observed after the engine call, playlist mode,
whether `temp_dir` exists, and the scratch-directory listing. -/
structure RunEnv where
  engineExc : Option String
  cancelled : Bool
  playlistMode : Bool
  tempDirOk : Bool
  entries : List DirEntry
  targetExt : String

/-- The signals emitted by one execution of `DownloadWorker.run`
(src/mdl/workers.py): progress signals from the hook during the engine call,
then exactly the branch structure of the source.  On an engine exception the
`except` block emits `"Cancelled."` or the truncated error; on normal return
the cancelled check, the playlist branch, the missing-temp-dir check and the
artifact resolution each emit their own terminal signal.  (The source's
success-path cancel message carries a stop-sign prefix; the prefix is
dropped here.)  The embedding is a total function: every branch of the
source funnels into exactly one emit and no exception escapes `run`. -/
def runSignals (env : RunEnv) (hookSigs : List (ℚ × String)) : List Sig :=
  (hookSigs.map fun p => Sig.progress p.1 p.2) ++
    match env.engineExc with
    | some msg =>
      if env.cancelled then
        [Sig.error "Cancelled."]
      else
        [Sig.error ("Error: " ++ (String.mk (msg.data.take 100)) ++ "...")]
    | none =>
      if env.cancelled then
        [Sig.error "Cancelled."]
      else if env.playlistMode then
        [Sig.finished "DONE! Playlist saved."]
      else if !env.tempDirOk then
        [Sig.error "Error: Temporary folder missing."]
      else
        match resolveArtifact env.targetExt env.entries with
        | some _ => [Sig.finished "DONE! File saved."]
        | none => [Sig.error "Error: File not found."]

/-- The one terminal signal a run produces, branch by branch of the source. -/
def terminalOf (env : RunEnv) : Sig :=
  match env.engineExc with
  | some msg =>
    if env.cancelled then
      Sig.error "Cancelled."
    else
      Sig.error ("Error: " ++ (String.mk (msg.data.take 100)) ++ "...")
  | none =>
    if env.cancelled then
      Sig.error "Cancelled."
    else if env.playlistMode then
      Sig.finished "DONE! Playlist saved."
    else if !env.tempDirOk then
      Sig.error "Error: Temporary folder missing."
    else
      match resolveArtifact env.targetExt env.entries with
      | some _ => Sig.finished "DONE! File saved."
      | none => Sig.error "Error: File not found."

/-- Throttle state of `DownloadWorker.progress_hook`:
`_last_progress_emit_time` (initially `0.0`) and `_last_progress_percent`
(initially `-1.0`). -/
structure ThrottleState where
  lastEmitTime : ℚ
  lastPercent : ℚ
deriving DecidableEq

/-- The worker's state when constructed. -/
def throttleStart : ThrottleState := ⟨0, -1⟩

/-- One `'downloading'` hook event: the monotonic clock reading and the
resolved byte counts.  `total` is `total_bytes or total_bytes_estimate or 0`,
so `0` means the total is unknown. -/
structure ProgEvent where
  now : ℚ
  total : ℕ
  downloaded : ℕ
deriving DecidableEq

/-- `percent = (downloaded / total * 100) if total > 0 else 0`. -/
def percentOf (total downloaded : ℕ) : ℚ :=
  if 0 < total then (downloaded : ℚ) / (total : ℚ) * 100 else 0

/-- The `should_emit` test of `progress_hook`, verbatim from the source:
first-ever event (`_last_progress_emit_time == 0.0`), ≥0.25 s since the last
emission, percent moved by ≥0.5 since the last emission, or a known total
reached. -/
def shouldEmit (st : ThrottleState) (ev : ProgEvent) : Bool :=
  decide (st.lastEmitTime = 0)
    || decide (ev.now - st.lastEmitTime ≥ 1/4)
    || decide (|percentOf ev.total ev.downloaded - st.lastPercent| ≥ 1/2)
    || (decide (0 < ev.total) && decide (ev.downloaded ≥ ev.total))

/-- One hook invocation: emit and record, or drop and keep the state. -/
def throttleStep (st : ThrottleState) (ev : ProgEvent) : Bool × ThrottleState :=
  if shouldEmit st ev then
    (true, ⟨ev.now, percentOf ev.total ev.downloaded⟩)
  else
    (false, st)

/-- The emission flags of a run of the hook over a list of events. -/
def throttleRun (st : ThrottleState) : List ProgEvent → List Bool
  | [] => []
  | ev :: rest =>
    (throttleStep st ev).1 :: throttleRun (throttleStep st ev).2 rest

/-- The claim's throttle, following the spec's words: remember the clock time
and percentage of the last emission (`none` while nothing has been emitted
yet) and emit exactly when this is the first event, at least 250 ms elapsed
since the last emission, the percentage differs from the last emitted one by
at least 0.5, or downloaded bytes reached a known total. -/
def claimShouldEmit (st : Option (ℚ × ℚ)) (ev : ProgEvent) : Bool :=
  match st with
  | none => true
  | some (t, p) =>
    decide (ev.now - t ≥ 1/4)
      || decide (|percentOf ev.total ev.downloaded - p| ≥ 1/2)
      || (decide (0 < ev.total) && decide (ev.downloaded ≥ ev.total))

/-- The claim-side run paired with `claimShouldEmit`. -/
def claimRun (st : Option (ℚ × ℚ)) : List ProgEvent → List Bool
  | [] => []
  | ev :: rest =>
    if claimShouldEmit st ev then
      true :: claimRun (some (ev.now, percentOf ev.total ev.downloaded)) rest
    else
      false :: claimRun st rest

/-- The character class of `re.sub(r'[<>:"/\\|?*\x00-\x1f]', '_', ...)` in
`DownloadWorker._safe_suffix`. -/
def isIllegalChar (c : Char) : Bool :=
  c = '<' || c = '>' || c = ':' || c = '"' || c = '/' || c = '\\'
    || c = '|' || c = '?' || c = '*' || decide (c.toNat ≤ 0x1f)

/-- The whitespace set of Python `str.strip()` (ASCII part; every character
below 0x20 has already been replaced by an underscore when `strip` runs, so
only the plain space matters there). -/
def isPySpace (c : Char) : Bool :=
  c = ' ' || c = '\t' || c = '\n' || c = '\x0b' || c = '\x0c' || c = '\r'

/-- Python `str.strip()`: drop whitespace from both ends. -/
def pyStripList (l : List Char) : List Char :=
  ((l.dropWhile isPySpace).reverse.dropWhile isPySpace).reverse

/-- Python `str.rstrip('.')`: drop trailing dots. -/
def rstripDotList (l : List Char) : List Char :=
  (l.reverse.dropWhile (fun c => c = '.')).reverse

/-- `DownloadWorker._safe_suffix`: a falsy (empty) configured suffix yields
`""`; otherwise replace every illegal character by `'_'`, strip whitespace
from both ends, then strip trailing dots. -/
def safeSuffix (suffix : String) : String :=
  if suffix = "" then
    ""
  else
    String.mk (rstripDotList (pyStripList
      (suffix.data.map fun c => if isIllegalChar c then '_' else c)))

/-- The renaming step of `_apply_suffix_to_file` on the base name (the file
name without its extension): return unchanged when the configured suffix is
falsy, when the sanitized suffix is empty, or when the base name already ends
with the sanitized suffix; otherwise append a space and the sanitized
suffix. -/
def applySuffixBase (suffix base : String) : String :=
  if suffix = "" then
    base
  else if safeSuffix suffix = "" then
    base
  else if pyEndsWith base (safeSuffix suffix) then
    base
  else
    base ++ " " ++ safeSuffix suffix

/-- The fields of a raw engine format record that `InfoWorker.run` consults.
An `Option` models a Python dict lookup: `none` is an absent (null) key. -/
structure RawFormat where
  vcodec : Option String
  height : Option Nat
  fps : Option ℚ
  tbr : Option ℚ
  filesize : Option Nat
  filesizeApprox : Option Nat
deriving DecidableEq

/-- Python truthiness of `f.get('height')`: present and nonzero. -/
def heightTruthy : Option Nat → Bool
  | none => false
  | some h => decide (h ≠ 0)

/-- The retention test of `InfoWorker.run`:
`f.get('vcodec') != 'none' and f.get('height')`.  Note the comparison is
against the engine's `'none'` sentinel string, not against a null value. -/
def keepFormat (f : RawFormat) : Bool :=
  decide (f.vcodec ≠ some "none") && heightTruthy f.height

/-- Python `round()` (banker's rounding, ties to even), used by
`int(round(fps))`. -/
def pyRound (q : ℚ) : ℤ :=
  if q - ⌊q⌋ < 1/2 then ⌊q⌋
  else if 1/2 < q - ⌊q⌋ then ⌊q⌋ + 1
  else if ⌊q⌋ % 2 = 0 then ⌊q⌋ else ⌊q⌋ + 1

/-- The `fps_rounded` annotation: `int(round(fps))` when `fps` is truthy,
else `0`. -/
def fpsRoundedOf (f : RawFormat) : ℤ :=
  match f.fps with
  | none => 0
  | some q => if q = 0 then 0 else pyRound q

/-- The sort key `(x.get('height', 0), x.get('fps_rounded', 0),
x.get('tbr', 0))`. -/
def formatKey (f : RawFormat) : ℤ × ℤ × ℚ :=
  ((f.height.getD 0 : ℕ), fpsRoundedOf f, f.tbr.getD 0)

/-- Lexicographic comparison of sort keys (Python tuple comparison). -/
def keyLE (a b : ℤ × ℤ × ℚ) : Bool :=
  decide (a.1 < b.1)
    || (decide (a.1 = b.1)
      && (decide (a.2.1 < b.2.1)
        || (decide (a.2.1 = b.2.1) && decide (a.2.2 ≤ b.2.2))))

/-- `clean_formats.sort(key=..., reverse=True)`: a stable sort that places
`a` before `b` when `a`'s key is at least `b`'s. -/
def descLE (a b : RawFormat) : Bool :=
  keyLE (formatKey b) (formatKey a)

/-- The video-format list `InfoWorker.run` emits: formats passing the
retention test, sorted descending by (height, rounded fps, bitrate).  The
string annotations (`vcodec_clean`, `filesize_str`) do not affect membership
or order and are not modelled. -/
def sortedCleanFormats (fs : List RawFormat) : List RawFormat :=
  (fs.filter keepFormat).mergeSort descLE

/-- A format with an absent video codec and a known height. -/
def orphanFormat : RawFormat :=
  ⟨none, some 720, none, none, none, none⟩

/-- A subtitle map as returned by the engine (`subtitles` or
`automatic_captions`): language code paired with its entry list, of which
only emptiness matters. -/
abbrev SubMap := List (String × List String)

/-- The subtitle-language extraction of `InfoWorker.run`:
`sorted([lang for lang, entries in subs.items() if entries])`. -/
def subtitleLanguages (subs : SubMap) : List String :=
  ((subs.filter fun p => !p.2.isEmpty).map Prod.fst).mergeSort
    fun a b => decide (a ≤ b)

/-- Python `str.lower()` (character-wise). -/
def pyLower (s : String) : String :=
  String.mk (s.data.map Char.toLower)

/-- `MainWindow._is_supported_subtitle_language`'s base code:
`language_code.lower().split("-")[0].split("_")[0]`. -/
def baseCode (code : String) : String :=
  String.mk (((pyLower code).data.takeWhile fun c => c != '-').takeWhile
    fun c => c != '_')

/-- `MainWindow._is_supported_subtitle_language`: the base code is a key of
the static language table.  Modelled from the spec: the table itself
(`LANGUAGE_NAMES` in `mdl/config.py`) is not among the provided sources, and
only membership of base codes in it matters, so it is abstracted to the list
of its keys. -/
def isSupportedSubtitleLanguage (table : List String) (code : String) : Bool :=
  table.contains (baseCode code)

/-- The subtitle-language list the metadata fetch delivers: the worker's
sorted list, filtered by `MainWindow.on_info_fetched` through
`_is_supported_subtitle_language`.  Manual and auto-generated lists go
through this same pipeline. -/
def storedSubtitleLanguages (table : List String) (subs : SubMap) :
    List String :=
  (subtitleLanguages subs).filter (isSupportedSubtitleLanguage table)

/-- Python `str.lstrip('.')`. -/
def lstripDotList (l : List Char) : List Char :=
  l.dropWhile fun c => c == '.'

/-- The extension part of Python `os.path.splitext` on a bare file name:
split at the last dot, unless every character before that dot is itself a dot
(then there is no extension, as for `.bashrc`). -/
def splitExtExt (l : List Char) : List Char :=
  match l.reverse.findIdx? (fun c => c == '.') with
  | none => []
  | some k =>
    if (l.take (l.length - 1 - k)).any (fun c => c != '.') then
      l.drop (l.length - 1 - k)
    else
      []

/-- `os.path.splitext(name)[1]` for a bare file name. -/
def pyExt (name : String) : String :=
  String.mk (splitExtExt name.data)

/-- `expected_ext = f".{str(self.target_ext or '').lower().lstrip('.')}"`. -/
def expectedExt (targetExt : String) : String :=
  "." ++ String.mk (lstripDotList (pyLower targetExt).data)

/-- Which files `_apply_suffix_to_recent_playlist_files` passes to the
renaming step: nothing without a configured suffix or outside playlist mode,
nothing when the expected extension collapses to `"."`; otherwise every file
under the destination tree whose lowercased extension equals the expected one
and whose modification time is not below `self._started_at - 2.0`
(the source skips files with `getmtime < cutoff`). -/
def selectPlaylistFiles (suffix targetExt : String) (playlistMode : Bool)
    (startedAt : ℚ) (files : List (String × ℚ)) : List String :=
  if suffix = "" || !playlistMode then
    []
  else if expectedExt targetExt = "." then
    []
  else
    (files.filter fun f =>
      (pyLower (pyExt f.1) == expectedExt targetExt)
        && decide (startedAt - 2 ≤ f.2)).map Prod.fst

theorem removable_iff_str_mem (s : Status) :
    removable s ↔ s.str ∈ (["pending", "finished", "error"] : List String) := by
  cases s <;> simp [removable, Status.str]

/-- C8: `QueueManager.remove(index)` returns `True` and removes exactly the
indexed item precisely when the index is in range and the item's status is
pending, finished or error; in every other case (status downloading or
cancelled, index out of range, any negative index) it returns `False` and
leaves the queue unchanged. -/
theorem C8_remove_spec (items : List QueueItem) (index : ℤ) :
    ((remove items index).1 = true ↔
      ∃ h : 0 ≤ index ∧ index.toNat < items.length,
        removable (items.get ⟨index.toNat, h.2⟩).status)
    ∧ ((remove items index).1 = true →
        (remove items index).2
          = items.take index.toNat ++ items.drop (index.toNat + 1))
    ∧ ((remove items index).1 = false → (remove items index).2 = items) := by
  unfold remove
  split
  case isTrue h =>
    split
    case isTrue hs =>
      exact ⟨⟨fun _ => ⟨h, (removable_iff_str_mem _).mpr hs⟩, fun _ => rfl⟩,
        fun _ => rfl, fun hfalse => by simp at hfalse⟩
    case isFalse hs =>
      refine ⟨⟨fun hc => by simp at hc, ?_⟩, fun hc => by simp at hc, fun _ => rfl⟩
      rintro ⟨h', hr⟩
      exact absurd ((removable_iff_str_mem _).mp hr) hs
  case isFalse h =>
    exact ⟨⟨fun hc => by simp at hc, fun ⟨h', _⟩ => absurd h' h⟩,
      fun hc => by simp at hc, fun _ => rfl⟩

/-- Witness for C8 at a concrete queue: removing index 0 (a pending item)
succeeds and leaves only the other item; the theorem is applied directly. -/
theorem C8_remove_spec_witness :
    (remove [sampleItem .pending, sampleItem .downloading] 0).1 = true
    ∧ (remove [sampleItem .pending, sampleItem .downloading] 0).2
        = [sampleItem .downloading] := by
  have h := C8_remove_spec [sampleItem .pending, sampleItem .downloading] 0
  have h1 : (remove [sampleItem .pending, sampleItem .downloading] 0).1 = true :=
    h.1.mpr ⟨⟨by decide, by decide⟩, by simp [sampleItem, removable]⟩
  exact ⟨h1, by simpa using h.2.1 h1⟩

/-- C10: on a valid index, `update_status` returns `True`, replaces exactly the
`status` and `error_message` fields of the indexed item (the message argument
defaulting to the empty string, so an omitted message erases any stored error
message), and changes no other item; on an invalid index it returns `False`
and changes nothing. -/
theorem C10_updateStatus_spec (items : List QueueItem) (index : ℤ)
    (status : Status) (msg : String) :
    ((updateStatus items index status msg).1 = true ↔
      0 ≤ index ∧ index.toNat < items.length)
    ∧ ((updateStatus items index status msg).1 = false →
        (updateStatus items index status msg).2 = items)
    ∧ (∀ h : 0 ≤ index ∧ index.toNat < items.length,
        (updateStatus items index status msg).2
          = items.set index.toNat
              { items.get ⟨index.toNat, h.2⟩ with
                  status := status, error_message := msg }
        ∧ ∀ j, j ≠ index.toNat →
            (updateStatus items index status msg).2.getD j default
              = items.getD j default)
    ∧ updateStatusDefaultMsg items index status
        = updateStatus items index status "" := by
  refine ⟨?_, ?_, ?_, rfl⟩
  · unfold updateStatus
    split
    case isTrue h => exact ⟨fun _ => h, fun _ => rfl⟩
    case isFalse h => exact ⟨fun hc => by simp at hc, fun h' => absurd h' h⟩
  · unfold updateStatus
    split
    case isTrue h => intro hc; simp at hc
    case isFalse h => exact fun _ => rfl
  · intro h
    unfold updateStatus
    rw [dif_pos h]
    refine ⟨rfl, fun j hj => ?_⟩
    simp only [List.getD, List.get?_eq_getElem?]
    rw [List.getElem?_set_ne (Ne.symm hj)]

/-- Witness for C10: updating index 1 of a concrete queue to `error` with
message `"boom"` rewrites that item, leaves item 0 alone, and the no-message
form erases a stored message. -/
theorem C10_updateStatus_spec_witness :
    (updateStatus [sampleItem .pending, sampleItem .downloading] 1 .error "boom").2
      = [sampleItem .pending,
         { sampleItem .downloading with status := .error, error_message := "boom" }]
    ∧ (updateStatus [sampleItem .pending, sampleItem .downloading] 1 .error "boom").2.getD
        0 default = sampleItem .pending := by
  have h := C10_updateStatus_spec [sampleItem .pending, sampleItem .downloading]
    1 .error "boom"
  have hv : (0 : ℤ) ≤ 1 ∧ (1 : ℤ).toNat
      < ([sampleItem .pending, sampleItem .downloading] : List QueueItem).length :=
    ⟨by decide, by decide⟩
  refine ⟨?_, ?_⟩
  · have := (h.2.2.1 hv).1
    simpa [sampleItem] using this
  · have := (h.2.2.1 hv).2 0 (by decide)
    simpa [sampleItem] using this

theorem pickLargest_char (acc : Option DirEntry) (e : DirEntry) :
    ∃ b, pickLargest acc e = some b ∧ e.2 ≤ b.2
      ∧ (∀ a, acc = some a → a.2 ≤ b.2) ∧ (b = e ∨ acc = some b) := by
  cases acc with
  | none => exact ⟨e, rfl, le_refl _, by simp, Or.inl rfl⟩
  | some a =>
    by_cases hlt : a.2 < e.2
    · refine ⟨e, by simp [pickLargest, hlt], le_refl _, fun a' ha' => ?_, Or.inl rfl⟩
      cases ha'
      exact le_of_lt hlt
    · refine ⟨a, by simp [pickLargest, hlt], le_of_not_lt hlt, fun a' ha' => ?_,
        Or.inr rfl⟩
      cases ha'
      exact le_refl _

theorem foldl_pickLargest_none (l : List DirEntry) (acc : Option DirEntry)
    (h : l.foldl pickLargest acc = none) : l = [] ∧ acc = none := by
  induction l generalizing acc with
  | nil => exact ⟨rfl, h⟩
  | cons e rest ih =>
    obtain ⟨b, hb, -, -, -⟩ := pickLargest_char acc e
    rw [List.foldl_cons, hb] at h
    obtain ⟨-, hc⟩ := ih (some b) h
    exact absurd hc (by simp)

theorem foldl_pickLargest_some (l : List DirEntry) (acc : Option DirEntry)
    (x : DirEntry) (h : l.foldl pickLargest acc = some x) :
    (acc = some x ∨ x ∈ l) ∧ (∀ e ∈ l, e.2 ≤ x.2)
      ∧ (∀ a, acc = some a → a.2 ≤ x.2) := by
  induction l generalizing acc with
  | nil =>
    simp only [List.foldl_nil] at h
    refine ⟨Or.inl h, by simp, fun a ha => ?_⟩
    rw [h] at ha
    cases ha
    exact le_refl _
  | cons e rest ih =>
    obtain ⟨b, hb, hbe, hba, hbcase⟩ := pickLargest_char acc e
    rw [List.foldl_cons, hb] at h
    obtain ⟨hmem, hrest, hacc⟩ := ih (some b) h
    have hbx : b.2 ≤ x.2 := hacc b rfl
    refine ⟨?_, ?_, fun a ha => le_trans (hba a ha) hbx⟩
    · rcases hmem with hbx' | hxrest
      · rcases hbcase with hbe' | haccb
        · cases hbx'
          exact Or.inr (hbe' ▸ List.mem_cons_self _ _)
        · exact Or.inl (hbx' ▸ haccb)
      · exact Or.inr (List.mem_cons_of_mem _ hxrest)
    · intro e' he'
      rcases List.mem_cons.mp he' with he'' | he''
      · exact he'' ▸ le_trans hbe hbx
      · exact hrest e' he''

theorem scanLoop_eq_none_fold (targetExt : String) (l : List DirEntry)
    (acc : Option DirEntry)
    (h : ∀ e ∈ l, extMatch targetExt e = false) :
    scanLoop targetExt l acc = (none, l.foldl pickLargest acc) := by
  induction l generalizing acc with
  | nil => rfl
  | cons e rest ih =>
    have he := h e (List.mem_cons_self _ _)
    rw [List.foldl_cons]
    simp only [scanLoop, he]
    exact ih _ (fun e' h' => h e' (List.mem_cons_of_mem _ h'))

theorem scanLoop_fst_of_find (targetExt : String) (l : List DirEntry)
    (acc : Option DirEntry) (m : DirEntry)
    (h : l.find? (extMatch targetExt) = some m) :
    (scanLoop targetExt l acc).1 = some m.1 := by
  induction l generalizing acc with
  | nil => simp at h
  | cons e rest ih =>
    by_cases hp : extMatch targetExt e
    · rw [List.find?_cons_of_pos _ hp] at h
      cases h
      simp [scanLoop, hp]
    · rw [List.find?_cons_of_neg _ hp] at h
      have hp' : extMatch targetExt e = false := by
        simpa using hp
      simp only [scanLoop, hp']
      simpa using ih _ h

/-- C1: for a successful single-artifact transfer, the resolver picks the
first scratch-directory file ending in `"." + target_ext` when one exists,
otherwise a largest file by size; an empty scratch directory resolves to
nothing and makes `run` report the not-found error instead of a `finished`
signal. -/
theorem C1_artifact_resolution (targetExt : String) (entries : List DirEntry) :
    (∀ m, entries.find? (extMatch targetExt) = some m →
        resolveArtifact targetExt entries = some m.1)
    ∧ (entries.find? (extMatch targetExt) = none →
        entries ≠ [] →
        ∃ e, e ∈ entries ∧ resolveArtifact targetExt entries = some e.1
          ∧ ∀ e' ∈ entries, e'.2 ≤ e.2)
    ∧ (entries = [] →
        resolveArtifact targetExt entries = none
        ∧ ∀ hookSigs,
            runSignals ⟨none, false, false, true, entries, targetExt⟩ hookSigs
              = (hookSigs.map fun p => Sig.progress p.1 p.2)
                ++ [Sig.error "Error: File not found."]) := by
  refine ⟨fun m hm => ?_, fun hnone hne => ?_, fun hnil => ?_⟩
  · have hfst := scanLoop_fst_of_find targetExt entries none m hm
    unfold resolveArtifact
    rcases hsc : scanLoop targetExt entries none with ⟨t, lg⟩
    rw [hsc] at hfst
    simp only at hfst
    rw [hfst]
  · have hall : ∀ e ∈ entries, extMatch targetExt e = false := by
      intro e he
      simpa using List.find?_eq_none.mp hnone e he
    have hsc := scanLoop_eq_none_fold targetExt entries none hall
    unfold resolveArtifact
    rw [hsc]
    rcases hf : entries.foldl pickLargest none with - | x
    · exact absurd (foldl_pickLargest_none entries none hf).1 hne
    · obtain ⟨hmem, hle, -⟩ := foldl_pickLargest_some entries none x hf
      refine ⟨x, ?_, by simp, hle⟩
      rcases hmem with hc | hc
      · exact absurd hc (by simp)
      · exact hc
  · subst hnil
    exact ⟨rfl, fun hookSigs => rfl⟩

/-- Witness for C1: Scenario C (exact-extension match beats a larger file)
and Scenario D (fallback to the largest file), via the theorem itself. -/
theorem C1_artifact_resolution_witness :
    resolveArtifact "mp4" [("movie.mp4", 5), ("thumbnail.jpg", 9)]
        = some "movie.mp4"
    ∧ resolveArtifact "mp4" [("output.webm", 7)] = some "output.webm" := by
  refine ⟨(C1_artifact_resolution "mp4" _).1 ("movie.mp4", 5) (by decide), ?_⟩
  obtain ⟨e, hmem, hres, -⟩ :=
    (C1_artifact_resolution "mp4" [("output.webm", 7)]).2.1 (by decide) (by decide)
  have he : e = ("output.webm", 7) := by simpa using hmem
  rw [he] at hres
  exact hres

theorem filter_terminal_progress (l : List (ℚ × String)) :
    (l.map fun p => Sig.progress p.1 p.2).filter Sig.isTerminal = [] := by
  induction l with
  | nil => rfl
  | cons p rest ih => simpa [Sig.isTerminal] using ih

theorem runSignals_eq_append (env : RunEnv) (hookSigs : List (ℚ × String)) :
    runSignals env hookSigs
      = (hookSigs.map fun p => Sig.progress p.1 p.2) ++ [terminalOf env] := by
  unfold runSignals terminalOf
  rcases env with ⟨exc, c, pl, td, ents, ext⟩
  cases exc <;> cases c <;> cases pl <;> cases td <;> dsimp only <;> try rfl
  all_goals cases h : resolveArtifact ext ents <;> rfl

theorem terminalOf_isTerminal (env : RunEnv) :
    (terminalOf env).isTerminal = true := by
  unfold terminalOf
  rcases env with ⟨exc, c, pl, td, ents, ext⟩
  cases exc <;> cases c <;> cases pl <;> cases td <;> dsimp only <;> try rfl
  all_goals cases h : resolveArtifact ext ents <;> rfl

/-- C2: every execution of `DownloadWorker.run` — engine success, engine
failure, cancellation, missing scratch directory, artifact not found —
delivers exactly one terminal callback, and it is the last callback of the
run; the embedding is a total function, so no exception escapes the task. -/
theorem C2_single_terminal (env : RunEnv) (hookSigs : List (ℚ × String)) :
    ((runSignals env hookSigs).filter Sig.isTerminal).length = 1
    ∧ ∃ s, (runSignals env hookSigs).getLast? = some s
        ∧ s.isTerminal = true := by
  rw [runSignals_eq_append]
  constructor
  · rw [List.filter_append, filter_terminal_progress]
    simp [terminalOf_isTerminal]
  · exact ⟨terminalOf env, List.getLast?_concat _, terminalOf_isTerminal env⟩

theorem throttleRun_eq_claimRun (evs : List ProgEvent) (st : ThrottleState)
    (cst : Option (ℚ × ℚ))
    (hinv : (st.lastEmitTime = 0 ∧ cst = none)
      ∨ (0 < st.lastEmitTime ∧ cst = some (st.lastEmitTime, st.lastPercent)))
    (hpos : ∀ e ∈ evs, 0 < e.now) :
    throttleRun st evs = claimRun cst evs := by
  induction evs generalizing st cst with
  | nil => rfl
  | cons ev rest ih =>
    have hevpos : 0 < ev.now := hpos ev (List.mem_cons_self _ _)
    have hpos' : ∀ e ∈ rest, 0 < e.now :=
      fun e he => hpos e (List.mem_cons_of_mem _ he)
    have hsame : shouldEmit st ev = claimShouldEmit cst ev := by
      rcases hinv with ⟨hz, hc⟩ | ⟨hpos0, hc⟩
      · subst hc
        simp [shouldEmit, claimShouldEmit, hz]
      · subst hc
        have hz : ¬ st.lastEmitTime = 0 := ne_of_gt hpos0
        simp [shouldEmit, claimShouldEmit, hz]
    rcases hemit : shouldEmit st ev with - | -
    · have hc : claimShouldEmit cst ev = false := by rw [← hsame, hemit]
      simp only [throttleRun, claimRun, throttleStep, hemit, hc]
      simp only [Bool.false_eq_true, if_false]
      exact congrArg (List.cons false) (ih st cst hinv hpos')
    · have hc : claimShouldEmit cst ev = true := by rw [← hsame, hemit]
      simp only [throttleRun, claimRun, throttleStep, hemit, hc, if_true]
      refine congrArg (List.cons true) (ih _ _ (Or.inr ⟨hevpos, rfl⟩) hpos')

/-- C3: over any stream of `'downloading'` events carrying positive monotonic
clock readings, the hook's throttle emits exactly when the spec's conditions
say it should — first event (always emitted), 250 ms elapsed, percent moved
by 0.5, or a known total reached — and drops every other event. -/
theorem C3_throttle (evs : List ProgEvent) (hpos : ∀ e ∈ evs, 0 < e.now) :
    throttleRun throttleStart evs = claimRun none evs
    ∧ (evs ≠ [] → (throttleRun throttleStart evs).head? = some true) := by
  have heq := throttleRun_eq_claimRun evs throttleStart none (Or.inl ⟨rfl, rfl⟩) hpos
  refine ⟨heq, fun hne => ?_⟩
  rw [heq]
  rcases evs with - | ⟨ev, rest⟩
  · exact absurd rfl hne
  · simp [claimRun, claimShouldEmit]

/-- Witness for C3: a first event is emitted, and an event 0.1 s later whose
percentage moved only 0.1 with no completion is dropped. -/
theorem C3_throttle_witness :
    throttleRun throttleStart [⟨1, 1000, 100⟩, ⟨11/10, 1000, 101⟩]
      = claimRun none [⟨1, 1000, 100⟩, ⟨11/10, 1000, 101⟩]
    ∧ throttleRun throttleStart [⟨1, 1000, 100⟩, ⟨11/10, 1000, 101⟩]
      = [true, false] := by
  have h := C3_throttle [⟨1, 1000, 100⟩, ⟨11/10, 1000, 101⟩]
    (by intro e he; fin_cases he <;> norm_num)
  refine ⟨h.1, ?_⟩
  norm_num [throttleRun, throttleStep, shouldEmit, throttleStart, percentOf, abs]

/-- C5 counterexample: with an estimated total of 100 bytes and 150 bytes
downloaded, the hook computes and emits a percentage of 150, outside 0–100
(reaching the total forces the emission). -/
theorem C5_percent_counterexample :
    percentOf 100 150 = 150
    ∧ (100 : ℚ) < percentOf 100 150
    ∧ (throttleStep throttleStart ⟨1, 100, 150⟩).1 = true := by
  norm_num [percentOf, throttleStep, shouldEmit, throttleStart]

/-- C5 (amended): the emitted percentage is `downloaded / total * 100` when a
total is known and `0` otherwise; it is always nonnegative and stays within
0–100 whenever downloaded bytes do not exceed the known total, but exceeds
100 when they do. -/
theorem C5_percent_amended (total downloaded : ℕ) :
    0 ≤ percentOf total downloaded
    ∧ (total = 0 → percentOf total downloaded = 0)
    ∧ (0 < total →
        percentOf total downloaded = (downloaded : ℚ) / (total : ℚ) * 100)
    ∧ (0 < total → downloaded ≤ total → percentOf total downloaded ≤ 100)
    ∧ (0 < total → total < downloaded → 100 < percentOf total downloaded) := by
  refine ⟨?_, fun h0 => by simp [percentOf, h0], fun hpos => ?_, fun hpos hle => ?_,
    fun hpos hlt => ?_⟩
  · unfold percentOf
    split
    · positivity
    · exact le_refl 0
  · simp [percentOf, hpos]
  · have htot : (0 : ℚ) < (total : ℚ) := by exact_mod_cast hpos
    have : (downloaded : ℚ) / (total : ℚ) ≤ 1 := by
      rw [div_le_one htot]
      exact_mod_cast hle
    calc percentOf total downloaded
        = (downloaded : ℚ) / (total : ℚ) * 100 := by simp [percentOf, hpos]
      _ ≤ 1 * 100 := by nlinarith
      _ = 100 := by norm_num
  · have htot : (0 : ℚ) < (total : ℚ) := by exact_mod_cast hpos
    have : (1 : ℚ) < (downloaded : ℚ) / (total : ℚ) := by
      rw [lt_div_iff₀ htot, one_mul]
      exact_mod_cast hlt
    calc (100 : ℚ) = 1 * 100 := by norm_num
      _ < (downloaded : ℚ) / (total : ℚ) * 100 := by nlinarith
      _ = percentOf total downloaded := by simp [percentOf, hpos]

/-- Witness for C5: concrete evaluations through the amended theorem. -/
theorem C5_percent_amended_witness :
    percentOf 0 5 = 0 ∧ percentOf 200 50 ≤ 100 ∧ 100 < percentOf 100 150 := by
  exact ⟨(C5_percent_amended 0 5).2.1 rfl,
    (C5_percent_amended 200 50).2.2.2.1 (by norm_num) (by norm_num),
    (C5_percent_amended 100 150).2.2.2.2 (by norm_num) (by norm_num)⟩

theorem head?_dropWhile_not {α : Type} {p : α → Bool} {l : List α} {c : α}
    (h : (l.dropWhile p).head? = some c) : p c = false := by
  induction l with
  | nil => simp at h
  | cons a rest ih =>
    by_cases hp : p a
    · rw [List.dropWhile_cons_of_pos hp] at h
      exact ih h
    · rw [List.dropWhile_cons_of_neg hp] at h
      have : a = c := by simpa using h
      subst this
      simpa using hp

theorem mem_rstripDotList {l : List Char} {c : Char} (h : c ∈ rstripDotList l) :
    c ∈ l := by
  unfold rstripDotList at h
  rw [List.mem_reverse] at h
  exact List.mem_reverse.mp ((List.dropWhile_sublist _).mem h)

theorem mem_pyStripList {l : List Char} {c : Char} (h : c ∈ pyStripList l) :
    c ∈ l := by
  unfold pyStripList at h
  rw [List.mem_reverse] at h
  exact (List.dropWhile_sublist _).mem
    (List.mem_reverse.mp ((List.dropWhile_sublist _).mem h))

/-- The sanitized suffix is itself a suffix of the once-renamed base name. -/
theorem pyEndsWith_append (base mid s : String) :
    pyEndsWith (base ++ mid ++ s) s = true := by
  unfold pyEndsWith
  rw [List.isSuffixOf_iff_suffix]
  exact ⟨(base ++ mid).data, by simp [String.data_append]⟩

/-- C4 counterexample: sanitizing the suffix `"a ."` yields `"a "`, which
still ends in a space — `strip()` runs before `rstrip('.')`, so a space
uncovered by removing a trailing dot survives, contradicting the claim that
trailing dots and spaces are trimmed. -/
theorem C4_suffix_counterexample :
    safeSuffix "a ." = "a " ∧ ("a ").data.getLast? = some ' ' := by
  constructor
  · rfl
  · rfl

/-- C4 (amended): sanitization replaces every illegal character with an
underscore, strips whitespace from both ends and then trailing dots — so the
result never ends in a dot, though it may retain a space uncovered by a
removed trailing dot — and the suffix-renaming step is a no-op on a base name
already ending in the sanitized suffix, so applying it twice never doubles
the suffix. -/
theorem C4_suffix_amended (suffix base : String) :
    (∀ c ∈ (safeSuffix suffix).data, isIllegalChar c = false)
    ∧ (safeSuffix suffix).data.getLast? ≠ some '.'
    ∧ applySuffixBase suffix (applySuffixBase suffix base)
        = applySuffixBase suffix base := by
  refine ⟨fun c hc => ?_, fun hlast => ?_, ?_⟩
  · unfold safeSuffix at hc
    split at hc
    · simp at hc
    · have hc' : c ∈ (suffix.data.map fun c => if isIllegalChar c then '_' else c) :=
        mem_pyStripList (mem_rstripDotList hc)
      obtain ⟨a, -, ha⟩ := List.mem_map.mp hc'
      by_cases hi : isIllegalChar a
      · rw [if_pos hi] at ha
        rw [← ha]
        rfl
      · rw [if_neg hi] at ha
        rw [← ha]
        simpa using hi
  · unfold safeSuffix at hlast
    split at hlast
    · simp at hlast
    · unfold rstripDotList at hlast
      rw [List.getLast?_reverse] at hlast
      have := head?_dropWhile_not hlast
      simp at this
  · unfold applySuffixBase
    by_cases h1 : suffix = ""
    · simp [h1]
    · by_cases h2 : safeSuffix suffix = ""
      · simp [h1, h2]
      · by_cases h3 : pyEndsWith base (safeSuffix suffix)
        · simp [h1, h2, h3]
        · have h4 : pyEndsWith (base ++ " " ++ safeSuffix suffix)
              (safeSuffix suffix) = true := pyEndsWith_append base " " _
          simp [h1, h2, h3, h4]

/-- Witness for C4: Scenario E — suffix `"[1920x1080 av01]"` on base `clip`
appends once and re-application is a no-op; a sampled character of a
sanitized suffix is legal. -/
theorem C4_suffix_amended_witness :
    applySuffixBase "[1920x1080 av01]"
        (applySuffixBase "[1920x1080 av01]" "clip")
      = applySuffixBase "[1920x1080 av01]" "clip"
    ∧ applySuffixBase "[1920x1080 av01]" "clip" = "clip [1920x1080 av01]"
    ∧ isIllegalChar 'b' = false := by
  refine ⟨(C4_suffix_amended "[1920x1080 av01]" "clip").2.2, by decide, ?_⟩
  exact (C4_suffix_amended "a<b>" "x").1 'b' (by decide)

theorem keepFormat_iff (f : RawFormat) :
    keepFormat f = true ↔
      f.vcodec ≠ some "none" ∧ ∃ h, f.height = some h ∧ h ≠ 0 := by
  cases hh : f.height with
  | none => simp [keepFormat, heightTruthy, hh]
  | some h => simp [keepFormat, heightTruthy, hh]

/-- C6 counterexample: a format whose `vcodec` key is absent (null) but whose
height is known passes the filter `f.get('vcodec') != 'none'` (null is not
the string `'none'`), so it appears in the returned video-format list — the
claim says every null-codec format is excluded. -/
theorem C6_format_filter_counterexample :
    orphanFormat.vcodec = none
    ∧ keepFormat orphanFormat = true
    ∧ orphanFormat ∈ sortedCleanFormats [orphanFormat] := by
  refine ⟨rfl, by decide, ?_⟩
  rw [sortedCleanFormats, List.mem_mergeSort, List.mem_filter]
  exact ⟨by decide, by decide⟩

/-- C6 (amended): the metadata fetch retains a raw engine format exactly when
its video codec is not the engine's `'none'` sentinel and its height is known
(non-null, nonzero); audio-only streams marked `vcodec='none'` are excluded,
but a format with an absent (null) video codec is retained. -/
theorem C6_format_filter_amended (fs : List RawFormat) (f : RawFormat) :
    (f ∈ sortedCleanFormats fs ↔
      f ∈ fs ∧ f.vcodec ≠ some "none" ∧ ∃ h, f.height = some h ∧ h ≠ 0)
    ∧ (f.vcodec = some "none" → f ∉ sortedCleanFormats fs) := by
  constructor
  · rw [sortedCleanFormats, List.mem_mergeSort, List.mem_filter, keepFormat_iff]
  · intro hv hmem
    rw [sortedCleanFormats, List.mem_mergeSort, List.mem_filter] at hmem
    exact ((keepFormat_iff f).mp hmem.2).1 (by rw [hv])

/-- Witness for C6: a video format is retained, an audio-only (`'none'`)
format is dropped, in one concrete listing. -/
theorem C6_format_filter_amended_witness :
    (⟨some "av01", some 1080, none, none, none, none⟩ : RawFormat)
      ∈ sortedCleanFormats
        [⟨some "none", some 720, none, none, none, none⟩,
         ⟨some "av01", some 1080, none, none, none, none⟩]
    ∧ (⟨some "none", some 720, none, none, none, none⟩ : RawFormat)
      ∉ sortedCleanFormats
        [⟨some "none", some 720, none, none, none, none⟩,
         ⟨some "av01", some 1080, none, none, none, none⟩] := by
  exact ⟨(C6_format_filter_amended _ _).1.mpr
      ⟨by simp, by simp, 1080, rfl, by simp⟩,
    (C6_format_filter_amended _ _).2 rfl⟩

theorem stringLE_trans (a b c : String) :
    (fun a b => decide (a ≤ b)) a b → (fun a b => decide (a ≤ b)) b c →
      (fun a b => decide (a ≤ b)) a c = true := by
  simp only [decide_eq_true_iff]
  exact le_trans

theorem stringLE_total (a b : String) :
    ((fun a b => decide (a ≤ b)) a b || (fun a b => decide (a ≤ b)) b a)
      = true := by
  simpa using le_total a b

/-- C7: each subtitle-language list the metadata fetch delivers (the worker's
sorted list of languages with entries, filtered through the window's
supported-language test — manual and auto-generated lists take this same
path) is sorted and deduplicated, and a language whose base code is absent
from the static language table never appears in it. -/
theorem C7_subtitle_languages (table : List String) (subs : SubMap)
    (hnodup : (subs.map Prod.fst).Nodup) :
    (storedSubtitleLanguages table subs).Sorted (· ≤ ·)
    ∧ (storedSubtitleLanguages table subs).Nodup
    ∧ ∀ lang ∈ storedSubtitleLanguages table subs, baseCode lang ∈ table := by
  refine ⟨?_, ?_, fun lang hl => ?_⟩
  · have hs := List.sorted_mergeSort stringLE_trans stringLE_total
      ((subs.filter fun p => !p.2.isEmpty).map Prod.fst)
    have hs' : (subtitleLanguages subs).Sorted (· ≤ ·) := by
      unfold subtitleLanguages
      exact hs.imp fun h => of_decide_eq_true h
    exact hs'.sublist (List.filter_sublist _)
  · have h1 : ((subs.filter fun p => !p.2.isEmpty).map Prod.fst).Nodup :=
      hnodup.sublist ((List.filter_sublist _).map Prod.fst)
    have h2 : (subtitleLanguages subs).Nodup := by
      unfold subtitleLanguages
      exact ((List.mergeSort_perm _ _).nodup_iff).mpr h1
    exact h2.filter _
  · rw [storedSubtitleLanguages, List.mem_filter] at hl
    have := hl.2
    rw [isSupportedSubtitleLanguage] at this
    simpa using this

/-- Witness for C7: a concrete fetch in which `es-419` (base `es`, in the
table) survives and the deduplicated result is certified via the theorem. -/
theorem C7_subtitle_languages_witness :
    (storedSubtitleLanguages ["en", "es"]
      [("es-419", ["e"]), ("en", ["x"]), ("xx", ["y"]), ("fr", [])]).Nodup
    ∧ baseCode "es-419" ∈ (["en", "es"] : List String) := by
  have h := C7_subtitle_languages ["en", "es"]
    [("es-419", ["e"]), ("en", ["x"]), ("xx", ["y"]), ("fr", [])] (by decide)
  have hm : "es-419" ∈ storedSubtitleLanguages ["en", "es"]
      [("es-419", ["e"]), ("en", ["x"]), ("xx", ["y"]), ("fr", [])] := by
    rw [storedSubtitleLanguages, List.mem_filter, subtitleLanguages,
      List.mem_mergeSort]
    exact ⟨by decide, by decide⟩
  exact ⟨h.2.1, h.2.2 "es-419" hm⟩

/-- C9 counterexample: in playlist mode with suffix `"sfx"` and target
extension `mp4`, a file whose modification time is 99 — one second BEFORE the
task's start time 100 — is still selected for the renaming pass, because the
source's cutoff is `started_at - 2.0`; the claim says no file modified before
the task started is renamed. -/
theorem C9_playlist_rename_counterexample :
    selectPlaylistFiles "sfx" "mp4" true 100 [("a.mp4", 99)] = ["a.mp4"]
    ∧ (99 : ℚ) < 100 := by
  constructor
  · unfold selectPlaylistFiles
    rw [if_neg (by simp), if_neg (by decide)]
    simp only [List.filter_cons, List.filter_nil, Bool.and_eq_true, beq_iff_eq,
      decide_eq_true_iff]
    rw [if_pos ⟨by decide, by norm_num⟩]
    rfl
  · norm_num

/-- C9 (amended): with a configured suffix in playlist (collection) mode and
a usable target extension, the renaming pass is applied to exactly those
files under the destination tree whose lowercased extension equals the
expected target extension and whose modification time is no earlier than the
task's start time minus a 2-second grace window; files of any other
extension are never selected. -/
theorem C9_playlist_rename_amended (suffix targetExt : String)
    (startedAt : ℚ) (files : List (String × ℚ)) (name : String)
    (hsuffix : suffix ≠ "") (hext : expectedExt targetExt ≠ ".") :
    name ∈ selectPlaylistFiles suffix targetExt true startedAt files ↔
      ∃ mtime, (name, mtime) ∈ files
        ∧ pyLower (pyExt name) = expectedExt targetExt
        ∧ startedAt - 2 ≤ mtime := by
  unfold selectPlaylistFiles
  rw [if_neg (by simp [hsuffix]), if_neg hext, List.mem_map]
  constructor
  · rintro ⟨f, hf, rfl⟩
    rw [List.mem_filter, Bool.and_eq_true, beq_iff_eq, decide_eq_true_iff] at hf
    exact ⟨f.2, by simpa using hf.1, hf.2.1, hf.2.2⟩
  · rintro ⟨mtime, hmem, hext', hmt⟩
    refine ⟨(name, mtime), List.mem_filter.mpr ⟨hmem, ?_⟩, rfl⟩
    rw [Bool.and_eq_true, beq_iff_eq, decide_eq_true_iff]
    exact ⟨hext', hmt⟩

/-- Witness for C9: a matching `.mp4` file inside the window is selected and
a `.jpg` file is not, via the theorem. -/
theorem C9_playlist_rename_amended_witness :
    "a.mp4" ∈ selectPlaylistFiles "sfx" "mp4" true 100
      [("a.mp4", 99), ("b.jpg", 150)]
    ∧ "b.jpg" ∉ selectPlaylistFiles "sfx" "mp4" true 100
      [("a.mp4", 99), ("b.jpg", 150)] := by
  constructor
  · exact (C9_playlist_rename_amended "sfx" "mp4" 100
      [("a.mp4", 99), ("b.jpg", 150)] "a.mp4" (by decide) (by decide)).mpr
      ⟨99, by simp, by decide, by norm_num⟩
  · intro hmem
    obtain ⟨mtime, -, hext', -⟩ := (C9_playlist_rename_amended "sfx" "mp4" 100
      [("a.mp4", 99), ("b.jpg", 150)] "b.jpg" (by decide) (by decide)).mp hmem
    exact absurd hext' (by decide)

end MDL
